import Mathlib

/-!
# Verification of the `fileserver` HTTP download server

Shallow embedding of `src/selenium/base/fileserver/main.go`: a minimal HTTP
file server that statically serves a directory, lists it as JSON (optionally
with per-file content hashes), and deletes files by name.

The Go functions `NewHash`, `getHash`, `listFilesAsJson`, `deleteFileIfExists`
and the router `mux` are translated to pure Lean functions.  The surrounding
operating system (filesystem reads, `os.Stat`, `os.Remove`) is modelled by
explicit data passed to those functions:

* a directory read (`os.ReadDir`) is an `Except String (List Entry)`;
* each `Entry` carries the metadata `entry.Info()` would report, whether that
  metadata call fails, whether `os.Open` on the entry fails, whether reading
  the opened handle fails, whether the entry is a directory (reading a
  directory file descriptor fails with `EISDIR` on Linux, while `os.Open` on
  a directory succeeds), and the byte contents streamed on success;
* the delete-side filesystem is a finite map from paths to nodes, with
  `os.Remove` following POSIX semantics: it removes a regular file or an
  empty directory and fails with `ENOTEMPTY` on a non-empty directory.

HTTP responses are a sum type: the handler either writes a JSON body, writes
nothing (delete success), or calls `http.Error` with a status code and a
plain-text message.  JSON encoding (`encoding/json`) is modelled by a small
JSON value type; the `omitempty` tag on `HashSum` and the `null` encoding of
a nil Go slice are modelled explicitly.
-/

deriving instance DecidableEq for Except

namespace Fileserver

/-! ## Strings: `strings.ToLower`, `strings.TrimPrefix` -/

/-- Model of `strings.ToLower` on one character.  Go lower-cases the full
Unicode range; for every string whose lower-cased form could equal one of the
algorithm names `"md5"`, `"sha1"`, `"sha256"` the mapping is the ASCII one
modelled here (no non-ASCII rune lower-cases into those names' characters). -/
def goLowerChar (c : Char) : Char :=
  if 'A' ≤ c ∧ c ≤ 'Z' then Char.ofNat (c.toNat + 32) else c

/-- Model of `strings.ToLower`. -/
def goToLower (s : String) : String :=
  String.mk (s.data.map goLowerChar)

/-- Model of `strings.TrimPrefix(s, "/")`: drop one leading slash if present. -/
def trimSlash (s : String) : String :=
  match s.data with
  | '/' :: rest => String.mk rest
  | _ => s

/-! ## Hash Selector (`NewHash`) -/

/-- The digest algorithms the server supports, i.e. the constructors
`md5.New`, `sha1.New`, `sha256.New` reachable from `NewHash`. -/
inductive HashAlgo where
  | md5
  | sha1
  | sha256
deriving DecidableEq, Repr

/-- The source's `func NewHash(algo string) hash.Hash`: switch on `strings.ToLower(algo)`;
the Go `nil` result is `none`. -/
def NewHash (algo : String) : Option HashAlgo :=
  match goToLower algo with
  | "md5" => some .md5
  | "sha1" => some .sha1
  | "sha256" => some .sha256
  | _ => none

/-- Printable tag of an algorithm (used by the digest model below). -/
def algoTag : HashAlgo → String
  | .md5 => "md5"
  | .sha1 => "sha1"
  | .sha256 => "sha256"

/-- Lowercase hex digits of one byte. -/
def byteHex (n : Nat) : String :=
  let d := fun k => (Nat.digitChar (k % 16)).toString
  d ((n % 256) / 16) ++ d (n % 16)

/-- Model of the hex-encoded digest `fmt.Sprintf("%x", h.Sum(nil))` produced
by the external `crypto/md5`, `crypto/sha1`, `crypto/sha256` packages.  The
digest mathematics live outside this repository and no verified property
inspects a digest value, so the model is an opaque stand-in: a nonempty
string determined by the algorithm and the full byte stream (hence
deterministic, and never the empty string — a real digest has 32/40/64 hex
characters, so the `omitempty` behaviour is faithful). -/
def digestHex (h : HashAlgo) (content : List Nat) : String :=
  algoTag h ++ String.join (content.map byteHex)

/-! ## Filesystem model for the Directory Lister -/

/-- One entry of the configured directory as the operating system presents it
to the listing handler: the metadata `entry.Info()` reports, the outcomes of
`os.Open`/`Read` on the entry's path, and the bytes streamed on success. -/
structure Entry where
  /-- Go `info.Name()`, the base name. -/
  name : String
  /-- Go `info.Size()` in bytes (`int64`). -/
  size : Int
  /-- Go `info.ModTime().Unix()` seconds (`int64`). -/
  modTime : Int
  /-- The entry is a subdirectory.  `os.Open` succeeds on a directory but
  reading the descriptor fails with `EISDIR` on Linux. -/
  isDir : Bool
  /-- Whether `entry.Info()` returns an error (e.g. the entry vanished). -/
  infoFails : Bool
  /-- Whether `os.Open` on the entry's path returns an error. -/
  openFails : Bool
  /-- Reading the opened handle returns an error before EOF. -/
  readFails : Bool
  /-- The byte contents streamed by `io.Copy` when every read succeeds. -/
  content : List Nat
deriving DecidableEq, Repr

/-- The source's `func getHash(file string, algo string) (string, error)`, applied to the
model of what lives at path `file`.  Faithful to the source order: the file
is opened first; only then is `NewHash` consulted, and a `nil` hash returns
`("", nil)` without reading the contents. -/
def getHash (e : Entry) (algo : String) : Except String String :=
  if e.openFails then
    .error "failed to open file"
  else
    match NewHash algo with
    | none => .ok ""
    | some h =>
      if e.isDir || e.readFails then
        .error "failed to copy"
      else
        .ok (digestHex h e.content)

/-! ## FileInfo records and JSON encoding -/

/-- The source's `type FileInfo struct` with json tags `name`, `size`, `lastModified`,
`hashSum,omitempty`. -/
structure FileInfo where
  name : String
  size : Int
  lastModified : Int
  hashSum : String
deriving DecidableEq, Repr

/-- A JSON value, as produced by `encoding/json`. -/
inductive JsonValue where
  | str (s : String)
  | num (n : Int)
  | arr (elems : List JsonValue)
  | obj (fields : List (String × JsonValue))
  | null

/-- The key/value pairs `encoding/json` emits for one `FileInfo`: the three
plain fields always, and `hashSum` only when nonempty (`omitempty`). -/
def fileInfoFields (f : FileInfo) : List (String × JsonValue) :=
  [("name", .str f.name), ("size", .num f.size),
   ("lastModified", .num f.lastModified)]
  ++ (if f.hashSum = "" then [] else [("hashSum", .str f.hashSum)])

/-- JSON encoding of one `FileInfo`. -/
def encodeFileInfo (f : FileInfo) : JsonValue :=
  .obj (fileInfoFields f)

/-- JSON encoding of a Go slice of `FileInfo`: a nil slice (here `none`)
encodes as `null`, any non-nil slice as an array. -/
def encodeGoSlice : Option (List FileInfo) → JsonValue
  | none => .null
  | some fs => .arr (fs.map encodeFileInfo)

/-! ## HTTP responses -/

/-- What a handler writes to the `http.ResponseWriter`: a JSON body, nothing
(the default success status with no body), or `http.Error`'s status code and
plain-text message. -/
inductive Response where
  | json (body : JsonValue)
  | noBody
  | httpError (status : Nat) (msg : String)

/-! ## Directory Lister (`listFilesAsJson`) -/

/-- The loop body of `listFilesAsJson`: for each entry call `entry.Info()`,
then `getHash`, appending a `FileInfo`; the first error aborts the whole
listing (the Go code calls `http.Error` and returns from inside the loop). -/
def buildRecords (algo : String) : List Entry → Except String (List FileInfo)
  | [] => .ok []
  | e :: rest =>
    if e.infoFails then
      .error "entry info failed"
    else
      match getHash e algo with
      | .error msg => .error msg
      | .ok h =>
        match buildRecords algo rest with
        | .error msg => .error msg
        | .ok fs =>
          .ok ({ name := e.name, size := e.size, lastModified := e.modTime,
                 hashSum := h } :: fs)

/-- Insert into a list kept in descending `lastModified` order; together with
`sortFiles` this realises `sort.Slice(files, func(i, j) { return
files[i].LastModified > files[j].LastModified })`, whose contract is only
that the result is a permutation ordered by that comparison. -/
def insertByLM (f : FileInfo) : List FileInfo → List FileInfo
  | [] => [f]
  | g :: rest =>
    if f.lastModified > g.lastModified then f :: g :: rest
    else g :: insertByLM f rest

/-- The `sort.Slice` call: sort by `lastModified` descending. -/
def sortFiles : List FileInfo → List FileInfo
  | [] => []
  | f :: rest => insertByLM f (sortFiles rest)

/-- The pure core of `listFilesAsJson`: read the directory, build one record
per entry (first failure aborts), sort. -/
def listingRecords (readDir : Except String (List Entry)) (algo : String) :
    Except String (List FileInfo) :=
  match readDir with
  | .error msg => .error msg
  | .ok entries =>
    match buildRecords algo entries with
    | .error msg => .error msg
    | .ok files => .ok (sortFiles files)

/-- The source's `func listFilesAsJson(w http.ResponseWriter, dir string, algo string)`:
any filesystem failure becomes `http.Error(w, err, 500)`; on success the
non-nil slice `files` (built with `make([]FileInfo, 0, len(entries))`) is
JSON-encoded as the body. -/
def listFilesAsJson (readDir : Except String (List Entry)) (algo : String) :
    Response :=
  match listingRecords readDir algo with
  | .error msg => .httpError 500 msg
  | .ok files => .json (encodeGoSlice (some files))

/-! ## Paths: `filepath.Clean` and `filepath.Join` (Unix rules) -/

/-- Split a character list on `'/'` (the slash-separated path elements). -/
def splitSlash : List Char → List (List Char)
  | [] => [[]]
  | c :: rest =>
    if c = '/' then [] :: splitSlash rest
    else
      match splitSlash rest with
      | [] => [[c]]
      | w :: ws => (c :: w) :: ws

/-- The element-processing loop of `filepath.Clean`: walk the slash-separated
elements keeping an output stack (most recent first).  Empty and `"."`
elements are skipped; `".."` pops a normal element, is dropped at the root of
a rooted path, and accumulates otherwise. -/
def cleanStack (rooted : Bool) :
    List (List Char) → List (List Char) → List (List Char)
  | stack, [] => stack
  | stack, p :: rest =>
    if p = [] ∨ p = ['.'] then cleanStack rooted stack rest
    else if p = ['.', '.'] then
      match stack with
      | [] =>
        if rooted then cleanStack rooted [] rest
        else cleanStack rooted [['.', '.']] rest
      | top :: others =>
        if top = ['.', '.'] then cleanStack rooted (['.', '.'] :: top :: others) rest
        else cleanStack rooted others rest
    else cleanStack rooted (p :: stack) rest

/-- Join path elements with slashes. -/
def joinSlash : List (List Char) → List Char
  | [] => []
  | [w] => w
  | w :: ws => w ++ '/' :: joinSlash ws

/-- Model of `filepath.Clean` for Unix paths. -/
def goClean (path : String) : String :=
  match path.data with
  | [] => "."
  | c :: cs =>
    let rooted := c == '/'
    let parts := (cleanStack rooted [] (splitSlash (c :: cs))).reverse
    if rooted then String.mk ('/' :: joinSlash parts)
    else if parts = [] then "."
    else String.mk (joinSlash parts)

/-- Model of `filepath.Join(a, b)`: empty elements are dropped, the rest are
joined with a slash, and the result is cleaned; all-empty input gives `""`. -/
def goJoin (a b : String) : String :=
  if a = "" ∧ b = "" then ""
  else if a = "" then goClean b
  else if b = "" then goClean a
  else goClean (a ++ "/" ++ b)

/-! ## Filesystem model for the File Eraser -/

/-- What lives at a path on the delete side: a regular file, or a directory
with the names of its entries. -/
inductive Node where
  | file
  | dir (entries : List String)
deriving DecidableEq, Repr

/-- The delete-side filesystem: a finite map from paths to nodes.  `os.Stat`
succeeds exactly on mapped paths. -/
structure DelFS where
  nodes : List (String × Node)
deriving DecidableEq, Repr

/-- Lookup of the node at a path (`os.Stat`'s view). -/
def DelFS.lookup (fs : DelFS) (p : String) : Option Node :=
  (fs.nodes.find? (fun kv => kv.1 = p)).map (fun kv => kv.2)

/-- Model of `os.Remove` (POSIX): removes a regular file or an empty
directory; fails with `ENOTEMPTY` on a non-empty directory and with `ENOENT`
on a missing path.  The error string is the `*PathError` text that
`fmt.Sprintf("%v", err)` renders. -/
def removeResult (fs : DelFS) (p : String) : Except String Unit :=
  match fs.lookup p with
  | none => .error ("remove " ++ p ++ ": no such file or directory")
  | some .file => .ok ()
  | some (.dir []) => .ok ()
  | some (.dir (_ :: _)) => .error ("remove " ++ p ++ ": directory not empty")

/-- The source's `func deleteFileIfExists(w http.ResponseWriter, r *http.Request,
dir string)`: trim the leading slash from the request path, join against the
configured directory, `os.Stat` (any error gives 404 naming the file), then
`os.Remove` (any error gives 500 with the cause); on success nothing is
written. -/
def deleteFileIfExists (fs : DelFS) (dir : String) (path : String) : Response :=
  let fileName := trimSlash path
  let filePath := goJoin dir fileName
  match fs.lookup filePath with
  | none => .httpError 404 ("Unknown file " ++ fileName)
  | some _ =>
    match removeResult fs filePath with
    | .error cause =>
      .httpError 500 ("Failed to delete file " ++ fileName ++ ": " ++ cause)
    | .ok _ => .noBody

/-! ## Request Router (`mux`) -/

/-- An HTTP request as the handler sees it: the method, the URL path, and the
parsed query as the ordered key/value pairs of the raw query string
(`url.Values` groups values per key in this order, so a key is present iff
some pair has it, and `Query()[k][0]` is the first pair's value). -/
structure Request where
  method : String
  path : String
  query : List (String × String)
deriving DecidableEq, Repr

/-- Whether the query key `k` is present (`_, ok := r.URL.Query()[k]`). -/
def queryHas (q : List (String × String)) (k : String) : Bool :=
  q.any (fun kv => kv.1 = k)

/-- First value of the query key `k` (`r.URL.Query()[k][0]`), if present. -/
def queryFirst (q : List (String × String)) (k : String) : Option String :=
  (q.find? (fun kv => kv.1 = k)).map (fun kv => kv.2)

/-- Where the router sends a request: the File Eraser (with the request path
it will trim), the Directory Lister (with the algorithm name), or the static
`http.FileServer` passthrough. -/
inductive Dispatch where
  | eraseFile (path : String)
  | list (algo : String)
  | staticServe
deriving DecidableEq, Repr

/-- The source's `mux` handler body: `DELETE` goes to `deleteFileIfExists`;
otherwise a present `json` parameter goes to `listFilesAsJson` with the first
`hash` value (or `""` when `hash` is absent); otherwise the static file
server serves the request. -/
def mux (r : Request) : Dispatch :=
  if r.method = "DELETE" then .eraseFile r.path
  else if queryHas r.query "json" then
    match queryFirst r.query "hash" with
    | some v => .list v
    | none => .list ""
  else .staticServe

/-- Dispatch precedence written from the spec's words (section 4.4): first
the method test, then `json` presence with the first `hash` value as the
algorithm, else static serving regardless of any other parameters. -/
def muxSpec (r : Request) : Dispatch :=
  match r.method == "DELETE", queryHas r.query "json",
        queryFirst r.query "hash" with
  | true, _, _ => .eraseFile r.path
  | false, true, some algo => .list algo
  | false, true, none => .list ""
  | false, false, _ => .staticServe

/-- The supported-set table from the spec's words (section 4.1). -/
def supportedAlgos : List (String × HashAlgo) :=
  [("md5", .md5), ("sha1", .sha1), ("sha256", .sha256)]

/-- Hash selection written from the spec's words: look the case-folded name
up in the supported set; absence of a match is the sentinel `none`. -/
def NewHashSpec (algo : String) : Option HashAlgo :=
  (supportedAlgos.find? (fun kv => kv.1 = goToLower algo)).map (fun kv => kv.2)

/-! ## Statement vocabulary -/

/-- Whether a `getHash` call failed (used to state the failure claims). -/
def isErrResult (r : Except String String) : Bool :=
  match r with
  | .error _ => true
  | .ok _ => false

/-- Some filesystem read involved in one listing fails: the directory read
itself, an `entry.Info()` call, or the open/stream inside `getHash`. -/
def hasReadFailure (rd : Except String (List Entry)) (algo : String) : Bool :=
  match rd with
  | .error _ => true
  | .ok entries => entries.any (fun e => e.infoFails || isErrResult (getHash e algo))

/-- The error message of a failed listing (`""` for a successful one). -/
def errOf (r : Except String (List FileInfo)) : String :=
  match r with
  | .error m => m
  | .ok _ => ""

/-- Whether some record carries exactly an entry's metadata. -/
def hasRecordFor (files : List FileInfo) (e : Entry) : Bool :=
  files.any (fun f =>
    f.name == e.name && f.size == e.size && f.lastModified == e.modTime)

/-! ## Helper lemmas -/

lemma mem_insertByLM (x f : FileInfo) (l : List FileInfo) :
    x ∈ insertByLM f l ↔ x = f ∨ x ∈ l := by
  induction l with
  | nil => simp [insertByLM]
  | cons g rest ih =>
    by_cases hfg : f.lastModified > g.lastModified
    · simp only [insertByLM, if_pos hfg, List.mem_cons]
      try tauto
    · simp only [insertByLM, if_neg hfg, List.mem_cons, ih]
      try tauto

lemma pairwise_insertByLM (f : FileInfo) (l : List FileInfo)
    (h : l.Pairwise fun a b => b.lastModified ≤ a.lastModified) :
    (insertByLM f l).Pairwise fun a b => b.lastModified ≤ a.lastModified := by
  induction l with
  | nil => simp [insertByLM]
  | cons g rest ih =>
    rcases List.pairwise_cons.mp h with ⟨hg, hrest⟩
    by_cases hfg : f.lastModified > g.lastModified
    · simp only [insertByLM, if_pos hfg]
      refine List.pairwise_cons.mpr ⟨?_, h⟩
      intro x hx
      rcases List.mem_cons.mp hx with rfl | hx'
      · exact le_of_lt hfg
      · exact le_trans (hg x hx') (le_of_lt hfg)
    · simp only [insertByLM, if_neg hfg]
      refine List.pairwise_cons.mpr ⟨?_, ih hrest⟩
      intro x hx
      rcases (mem_insertByLM x f rest).mp hx with rfl | hx'
      · exact le_of_not_lt hfg
      · exact hg x hx'

lemma sortFiles_pairwise (l : List FileInfo) :
    (sortFiles l).Pairwise fun a b => b.lastModified ≤ a.lastModified := by
  induction l with
  | nil => simp [sortFiles]
  | cons f rest ih => exact pairwise_insertByLM f (sortFiles rest) ih

lemma mem_sortFiles (x : FileInfo) (l : List FileInfo) :
    x ∈ sortFiles l ↔ x ∈ l := by
  induction l with
  | nil => simp [sortFiles]
  | cons f rest ih =>
    simp only [sortFiles, mem_insertByLM, List.mem_cons, ih]
    try tauto

lemma buildRecords_hashSum_empty (algo : String) (l : List Entry)
    (hAlgo : NewHash algo = none) (fs : List FileInfo)
    (h : buildRecords algo l = .ok fs) : ∀ f ∈ fs, f.hashSum = "" := by
  induction l generalizing fs with
  | nil =>
    simp only [buildRecords] at h
    cases h
    intro f hf
    cases hf
  | cons e rest ih =>
    simp only [buildRecords] at h
    by_cases hinfo : e.infoFails
    · simp [hinfo] at h
    · simp only [hinfo, if_neg, ite_false, Bool.false_eq_true] at h
      rcases hg : getHash e algo with m | hv
      · rw [hg] at h; cases h
      · rw [hg] at h
        rcases hb : buildRecords algo rest with m | fs'
        · rw [hb] at h; cases h
        · rw [hb] at h
          cases h
          intro f hf
          rcases List.mem_cons.mp hf with rfl | hf'
          · have hopen : e.openFails = false := by
              by_contra hcon
              rw [Bool.not_eq_false] at hcon
              simp [getHash, hcon] at hg
            have hok : getHash e algo = .ok "" := by
              simp [getHash, hopen, hAlgo]
            rw [hg] at hok
            cases hok
            rfl
          · exact ih fs' hb f hf'

lemma buildRecords_error_of_fail (algo : String) (l : List Entry) (e : Entry)
    (he : e ∈ l)
    (hf : e.infoFails = true ∨ isErrResult (getHash e algo) = true) :
    ∃ m, buildRecords algo l = .error m := by
  induction l with
  | nil => cases he
  | cons x rest ih =>
    simp only [buildRecords]
    by_cases hinfo : x.infoFails
    · exact ⟨"entry info failed", by simp [hinfo]⟩
    · rcases hg : getHash x algo with m | hv
      · exact ⟨m, by simp [hinfo, hg]⟩
      · rcases List.mem_cons.mp he with rfl | he'
        · rcases hf with h1 | h2
          · exact absurd h1 (by simp [hinfo])
          · rw [hg] at h2
            simp [isErrResult] at h2
        · rcases ih he' with ⟨m, hm⟩
          exact ⟨m, by simp [hinfo, hg, hm]⟩

lemma buildRecords_mem (algo : String) (l : List Entry) (fs : List FileInfo)
    (h : buildRecords algo l = .ok fs) :
    ∀ e ∈ l, ∃ f ∈ fs, f.name = e.name ∧ f.size = e.size ∧
      f.lastModified = e.modTime := by
  induction l generalizing fs with
  | nil => intro e he; cases he
  | cons x rest ih =>
    intro e he
    simp only [buildRecords] at h
    by_cases hinfo : x.infoFails
    · simp [hinfo] at h
    · simp only [hinfo, ite_false, Bool.false_eq_true, if_neg] at h
      rcases hg : getHash x algo with m | hv
      · rw [hg] at h; cases h
      · rw [hg] at h
        rcases hb : buildRecords algo rest with m | fs'
        · rw [hb] at h; cases h
        · rw [hb] at h
          cases h
          rcases List.mem_cons.mp he with rfl | he'
          · exact ⟨_, List.mem_cons_self .., rfl, rfl, rfl⟩
          · rcases ih fs' hb e he' with ⟨f, hfmem, hprops⟩
            exact ⟨f, List.mem_cons_of_mem _ hfmem, hprops⟩

lemma listingRecords_ok (rd : Except String (List Entry)) (algo : String)
    (files : List FileInfo) (h : listingRecords rd algo = .ok files) :
    ∃ entries fs, rd = .ok entries ∧ buildRecords algo entries = .ok fs ∧
      files = sortFiles fs := by
  cases rd with
  | error m => simp [listingRecords] at h
  | ok entries =>
    simp only [listingRecords] at h
    rcases hb : buildRecords algo entries with m | fs
    · rw [hb] at h; cases h
    · rw [hb] at h
      cases h
      exact ⟨entries, fs, rfl, hb, rfl⟩

lemma listFiles_error_of_failure (rd : Except String (List Entry))
    (algo : String) (h : hasReadFailure rd algo = true) :
    listFilesAsJson rd algo = .httpError 500 (errOf (listingRecords rd algo)) := by
  cases rd with
  | error m => simp [listFilesAsJson, listingRecords, errOf]
  | ok entries =>
    simp only [hasReadFailure, List.any_eq_true] at h
    rcases h with ⟨e, he, hfail⟩
    have hf : e.infoFails = true ∨ isErrResult (getHash e algo) = true := by
      rcases Bool.or_eq_true_iff.mp hfail with h1 | h2
      · exact .inl h1
      · exact .inr h2
    rcases buildRecords_error_of_fail algo entries e he hf with ⟨m, hm⟩
    simp [listFilesAsJson, listingRecords, hm, errOf]

lemma trimSlash_slash_append (N : String) : trimSlash ("/" ++ N) = N := by
  cases N with
  | mk d =>
    have h : ("/" ++ String.mk d : String) = String.mk ('/' :: d) := rfl
    rw [h]
    simp [trimSlash]

/-! ## Concrete inputs used by witnesses and counterexamples -/

/-- A regular readable file, modified at time 10. -/
def entryOld : Entry := ⟨"a.txt", 3, 10, false, false, false, false, [1, 2, 3]⟩

/-- A regular readable file, modified at time 20. -/
def entryNew : Entry := ⟨"b.txt", 1, 20, false, false, false, false, [7]⟩

/-- The record the lister builds for `entryOld` without hashing. -/
def fiOld : FileInfo := ⟨"a.txt", 3, 10, ""⟩

/-- The record the lister builds for `entryNew` without hashing. -/
def fiNew : FileInfo := ⟨"b.txt", 1, 20, ""⟩

/-- A file whose metadata is readable but whose `os.Open` fails. -/
def openFailEntry : Entry := ⟨"locked.txt", 4, 0, false, false, true, false, []⟩

/-- The same file with `os.Open` succeeding. -/
def openOkEntry : Entry := ⟨"locked.txt", 4, 0, false, false, false, false, []⟩

/-- A subdirectory entry: opening succeeds, streaming fails (`EISDIR`). -/
def dirEntry : Entry := ⟨"sub", 4096, 5, true, false, false, false, []⟩

/-- A delete-side filesystem: base dir `/d` holding a file and a non-empty
subdirectory. -/
def demoFS : DelFS :=
  ⟨[("/d", .dir ["a.txt", "sub"]), ("/d/a.txt", .file), ("/d/sub", .dir ["x"])]⟩

/-- A delete-side filesystem whose base directory is empty. -/
def downloadsFS : DelFS := ⟨[("/home/selenium/Downloads", .dir [])]⟩

/-! ## Claim theorems -/

/-- C1: for every HTTP request the router dispatches in exact precedence:
`DELETE` goes to the File Eraser with the request path as target; otherwise a
present `json` parameter goes to the Directory Lister (with the first `hash`
value as the algorithm name when present, `""` otherwise); otherwise the
request is delegated to the static file server regardless of any other query
parameters.  `muxSpec` is that precedence written from the spec's words, and
the source's `mux` agrees with it on every request. -/
theorem mux_dispatch_precedence (r : Request) : mux r = muxSpec r := by
  unfold mux muxSpec
  cases hm : r.method == "DELETE" with
  | true =>
    have hm' : r.method = "DELETE" := by simpa using hm
    simp [hm, hm']
  | false =>
    have hm' : ¬r.method = "DELETE" := by simpa using hm
    cases hq : queryHas r.query "json" with
    | true =>
      cases hf : queryFirst r.query "hash" with
      | none => simp [hm, hm', hq, hf]
      | some v => simp [hm, hm', hq, hf]
    | false => simp [hm, hm', hq]

/-- C1 witness: the dispatch agreement evaluated on a concrete `DELETE`
request. -/
theorem mux_dispatch_precedence_witness :
    mux ⟨"DELETE", "/a.txt", [("json", "")]⟩ =
      muxSpec ⟨"DELETE", "/a.txt", [("json", "")]⟩ :=
  mux_dispatch_precedence ⟨"DELETE", "/a.txt", [("json", "")]⟩

/-- C2: for every delete request naming file `N` (request path `"/" ++ N`):
a failing `os.Stat` on the joined target gives 404 with a plain-text message
naming `N`; an existing target whose removal fails gives 500 with a message
carrying the underlying cause; successful removal writes no body. -/
theorem deleteFile_outcomes (fs : DelFS) (dir N : String) :
    (fs.lookup (goJoin dir N) = none →
      deleteFileIfExists fs dir ("/" ++ N) =
        .httpError 404 ("Unknown file " ++ N)) ∧
    (∀ node cause, fs.lookup (goJoin dir N) = some node →
      removeResult fs (goJoin dir N) = .error cause →
      deleteFileIfExists fs dir ("/" ++ N) =
        .httpError 500 ("Failed to delete file " ++ N ++ ": " ++ cause)) ∧
    (∀ node, fs.lookup (goJoin dir N) = some node →
      removeResult fs (goJoin dir N) = .ok () →
      deleteFileIfExists fs dir ("/" ++ N) = .noBody) := by
  have ht := trimSlash_slash_append N
  refine ⟨?_, ?_, ?_⟩
  · intro h
    simp [deleteFileIfExists, ht, h]
  · intro node cause h1 h2
    simp [deleteFileIfExists, ht, h1, h2]
  · intro node h1 h2
    simp [deleteFileIfExists, ht, h1, h2]

/-- C2 witness: the three outcomes on the concrete filesystem `demoFS`
— missing name, non-empty subdirectory, plain file. -/
theorem deleteFile_outcomes_witness :
    deleteFileIfExists demoFS "/d" ("/" ++ "ghost.txt") =
      .httpError 404 ("Unknown file " ++ "ghost.txt") ∧
    deleteFileIfExists demoFS "/d" ("/" ++ "sub") =
      .httpError 500 ("Failed to delete file " ++ "sub" ++ ": " ++
        "remove /d/sub: directory not empty") ∧
    deleteFileIfExists demoFS "/d" ("/" ++ "a.txt") = .noBody :=
  ⟨(deleteFile_outcomes demoFS "/d" "ghost.txt").1 (by decide),
   (deleteFile_outcomes demoFS "/d" "sub").2.1 (.dir ["x"])
     "remove /d/sub: directory not empty" (by decide) (by decide),
   (deleteFile_outcomes demoFS "/d" "a.txt").2.2 .file (by decide) (by decide)⟩

/-- C3 counterexample: the claim says that with an empty (or unsupported)
algorithm name only filesystem metadata is read, so a listing of an entry
with readable metadata must succeed.  In the code `getHash` opens every
entry's file before consulting `NewHash`: with algorithm `""` and an entry
whose metadata is fine but whose open fails, the listing is a 500 error, and
flipping only the open outcome flips the response — the file is opened even
though no hash was requested. -/
theorem getHash_open_counterexample :
    NewHash "" = none ∧
    openFailEntry.infoFails = false ∧
    listFilesAsJson (Except.ok [openFailEntry]) "" =
      .httpError 500 "failed to open file" ∧
    listFilesAsJson (Except.ok [openOkEntry]) "" =
      .json (encodeGoSlice (some [⟨"locked.txt", 4, 0, ""⟩])) :=
  ⟨by decide, by decide, rfl, rfl⟩

/-- C3 amended: every entry's file is opened unconditionally (a failing open
aborts the listing even without hashing); when the algorithm name is empty or
unsupported nothing is streamed through a digest accumulator — the result is
`ok ""` for every open-able entry whatever its contents, read outcome or
directory flag — and the hash field is left empty. -/
theorem getHash_opens_unconditionally (e : Entry) (algo : String)
    (h : NewHash algo = none) :
    getHash e algo =
      (if e.openFails then .error "failed to open file" else .ok "") := by
  cases he : e.openFails <;> simp [getHash, he, h]

/-- C3 witness: the amended statement evaluated on the open-failing entry
with the empty algorithm name. -/
theorem getHash_opens_unconditionally_witness :
    getHash openFailEntry "" =
      (if openFailEntry.openFails then .error "failed to open file"
       else .ok "") :=
  getHash_opens_unconditionally openFailEntry "" (by decide)

/-- C4: every successful listing is sorted by `lastModified` descending: for
all adjacent pairs of records, `lastModified[i] ≥ lastModified[i+1]`. -/
theorem listing_sorted_desc (rd : Except String (List Entry)) (algo : String)
    (files : List FileInfo) (h : listingRecords rd algo = .ok files) :
    files.Chain' fun a b => b.lastModified ≤ a.lastModified := by
  rcases listingRecords_ok rd algo files h with ⟨entries, fs, -, -, rfl⟩
  exact (sortFiles_pairwise fs).chain'

/-- C4 witness: the listing of two concrete files comes out newest first and
is adjacent-pairwise ordered. -/
theorem listing_sorted_desc_witness :
    ([fiNew, fiOld] : List FileInfo).Chain'
      (fun a b => b.lastModified ≤ a.lastModified) :=
  listing_sorted_desc (Except.ok [entryOld, entryNew]) "" [fiNew, fiOld]
    (by decide)

/-- C5: for every algorithm name string, the Hash Selector returns the
accumulator for the algorithm whose name equals the case-folded input among
{md5, sha1, sha256}, and the sentinel `none` for every other string
(including `""`), never an error — `NewHashSpec` is the supported-set lookup
written from the spec's words, and the source's `NewHash` agrees with it on
every string. -/
theorem newHash_matches_spec (s : String) : NewHash s = NewHashSpec s := by
  unfold NewHash NewHashSpec supportedAlgos
  split
  · rename_i heq
    rw [heq]
    decide
  · rename_i heq
    rw [heq]
    decide
  · rename_i heq
    rw [heq]
    decide
  · rename_i h1 h2 h3
    rw [List.find?]
    rw [decide_eq_false fun h => h1 h.symm, List.find?,
        decide_eq_false fun h => h2 h.symm, List.find?,
        decide_eq_false fun h => h3 h.symm, List.find?]
    rfl

/-- C5 witness: the agreement evaluated on a concrete upper-case name, with
the selected accumulator and the empty-string sentinel checked directly. -/
theorem newHash_matches_spec_witness :
    NewHash "SHA256" = NewHashSpec "SHA256" ∧
    NewHash "SHA256" = some HashAlgo.sha256 ∧ NewHash "" = none :=
  ⟨newHash_matches_spec "SHA256", by decide, by decide⟩

/-- C6: when the algorithm name is unsupported or empty, no record of a
successful listing carries a `hashSum` key — the field is omitted from the
encoded object entirely, so it cannot be `null` or an empty string. -/
theorem listing_no_hashSum_field (rd : Except String (List Entry))
    (algo : String) (files : List FileInfo) (hAlgo : NewHash algo = none)
    (h : listingRecords rd algo = .ok files) :
    ∀ f ∈ files, "hashSum" ∉ (fileInfoFields f).map Prod.fst := by
  rcases listingRecords_ok rd algo files h with ⟨entries, fs, -, hb, rfl⟩
  intro f hf
  have hf' : f ∈ fs := (mem_sortFiles f fs).mp hf
  have hs : f.hashSum = "" :=
    buildRecords_hashSum_empty algo entries hAlgo fs hb f hf'
  simp [fileInfoFields, hs]

/-- C6 witness: no `hashSum` key on a concrete record of the hashless
listing of two files. -/
theorem listing_no_hashSum_field_witness :
    "hashSum" ∉ (fileInfoFields fiNew).map Prod.fst :=
  listing_no_hashSum_field (Except.ok [entryOld, entryNew]) "" [fiNew, fiOld]
    (by decide) (by decide) fiNew (by decide)

/-- C7: if any filesystem read involved in a listing fails — the directory
read, an entry's metadata, or the open/stream inside `getHash` — the whole
listing aborts with status 500 and the plain-text error message; the
response is that error alone, so no partial JSON array is ever written (a
handler response here is exactly one of a complete body or an error). -/
theorem listing_aborts_on_failure (rd : Except String (List Entry))
    (algo : String) (h : hasReadFailure rd algo = true) :
    listFilesAsJson rd algo =
      .httpError 500 (errOf (listingRecords rd algo)) :=
  listFiles_error_of_failure rd algo h

/-- C7 witness: an unreadable directory aborts the listing with a 500. -/
theorem listing_aborts_on_failure_witness :
    listFilesAsJson (Except.error "permission denied") "md5" =
      .httpError 500
        (errOf (listingRecords (Except.error "permission denied") "md5")) :=
  listing_aborts_on_failure (Except.error "permission denied") "md5"
    (by decide)

/-- C8: a successful listing of an empty directory is the empty JSON array,
not JSON `null`: the lister always encodes a non-nil (possibly empty)
collection, while a nil Go slice would have encoded as `null`. -/
theorem empty_listing_json_array (algo : String) :
    listFilesAsJson (Except.ok []) algo = .json (JsonValue.arr []) ∧
    encodeGoSlice none = JsonValue.null ∧
    JsonValue.arr [] ≠ JsonValue.null := by
  refine ⟨rfl, rfl, ?_⟩
  intro h
  exact JsonValue.noConfusion h

/-- C8 witness: the empty-directory listing with a concrete algorithm. -/
theorem empty_listing_json_array_witness :
    listFilesAsJson (Except.ok []) "sha1" = .json (JsonValue.arr []) ∧
    encodeGoSlice none = JsonValue.null ∧
    JsonValue.arr [] ≠ JsonValue.null :=
  empty_listing_json_array "sha1"

/-- C9: a `DELETE` of path `"/"` extracts the empty file name, and the safe
join resolves the target to the configured (clean) base directory itself; as
the directory exists the existence check passes and its removal is
attempted, succeeding when it is empty and otherwise yielding the 500
removal-failure outcome. -/
theorem delete_root_targets_base_dir (fs : DelFS) (dir : String)
    (children : List String) (hclean : goClean dir = dir)
    (hdir : fs.lookup dir = some (.dir children)) :
    trimSlash "/" = "" ∧ goJoin dir "" = dir ∧
    deleteFileIfExists fs dir "/" =
      (if children = [] then Response.noBody
       else .httpError 500 ("Failed to delete file " ++ "" ++ ": " ++
         ("remove " ++ dir ++ ": directory not empty"))) := by
  have hne : dir ≠ "" := by
    intro h
    rw [h] at hclean
    exact absurd hclean (by decide)
  have hj : goJoin dir "" = dir := by
    simp [goJoin, hne, hclean]
  have ht : trimSlash "/" = "" := by decide
  refine ⟨ht, hj, ?_⟩
  cases children with
  | nil => simp [deleteFileIfExists, ht, hj, hdir, removeResult]
  | cons c cs => simp [deleteFileIfExists, ht, hj, hdir, removeResult]

/-- C9 witness: deleting `"/"` over an empty configured directory removes it
and writes no body. -/
theorem delete_root_targets_base_dir_witness :
    trimSlash "/" = "" ∧
    goJoin "/home/selenium/Downloads" "" = "/home/selenium/Downloads" ∧
    deleteFileIfExists downloadsFS "/home/selenium/Downloads" "/" =
      (if ([] : List String) = [] then Response.noBody
       else .httpError 500 ("Failed to delete file " ++ "" ++ ": " ++
         ("remove " ++ "/home/selenium/Downloads" ++
           ": directory not empty"))) :=
  delete_root_targets_base_dir downloadsFS "/home/selenium/Downloads" []
    (by decide) (by decide)

/-- C10: subdirectory entries are listed as records carrying the directory's
metadata (whenever the listing succeeds at all), and with any supported hash
algorithm a directory entry makes streaming fail, so the entire listing
returns status 500. -/
theorem dir_entries_listed_and_break_hashing (entries : List Entry)
    (e : Entry) (he : e ∈ entries) (hdir : e.isDir = true) :
    (∀ algo, (NewHash algo).isSome = true →
      listFilesAsJson (Except.ok entries) algo =
        .httpError 500 (errOf (listingRecords (Except.ok entries) algo))) ∧
    (∀ algo files, listingRecords (Except.ok entries) algo = .ok files →
      hasRecordFor files e = true) := by
  constructor
  · intro algo halgo
    apply listFiles_error_of_failure
    simp only [hasReadFailure, List.any_eq_true]
    refine ⟨e, he, ?_⟩
    have herr : isErrResult (getHash e algo) = true := by
      rcases ho : NewHash algo with _ | hv
      · rw [ho] at halgo
        cases halgo
      · cases hopen : e.openFails
        · simp [getHash, hopen, ho, hdir, isErrResult]
        · simp [getHash, hopen, isErrResult]
    simp [herr]
  · intro algo files hok
    rcases listingRecords_ok (Except.ok entries) algo files hok with
      ⟨entries', fs, heq, hb, rfl⟩
    cases heq
    rcases buildRecords_mem algo entries fs hb e he with ⟨f, hfmem, h1, h2, h3⟩
    simp only [hasRecordFor, List.any_eq_true]
    exact ⟨f, (mem_sortFiles f fs).mpr hfmem, by simp [h1, h2, h3]⟩

/-- C10 witness: a directory containing one subdirectory — hashing with md5
aborts with a 500, and the hashless listing carries the subdirectory's
metadata as a record. -/
theorem dir_entries_listed_and_break_hashing_witness :
    listFilesAsJson (Except.ok [dirEntry]) "md5" =
      .httpError 500 (errOf (listingRecords (Except.ok [dirEntry]) "md5")) ∧
    hasRecordFor [⟨"sub", 4096, 5, ""⟩] dirEntry = true :=
  ⟨(dir_entries_listed_and_break_hashing [dirEntry] dirEntry (by decide)
      (by decide)).1 "md5" (by decide),
   (dir_entries_listed_and_break_hashing [dirEntry] dirEntry (by decide)
      (by decide)).2 "" [⟨"sub", 4096, 5, ""⟩] (by decide)⟩

end Fileserver
